import Mathlib

/-!
Verification of the experiment-execution pipeline of the traefik-playground
repository, shallowly embedded in Lean 4.

Go strings are modelled as lists of byte values (`GoStr := List Nat`, each
element intended below 256). Go machine-integer operations that matter
(uint64 shifts in the header byte masks, byte subtraction) are modelled with
explicit wrap-around on `Nat`.
-/

set_option maxRecDepth 4096

deriving instance DecidableEq for Except

namespace Playground

/-- A Go string, as its sequence of byte values. -/
abbrev GoStr := List Nat

/-- Bytes of an ASCII Lean string, used to build concrete inputs. -/
def strBytes (s : String) : GoStr :=
  s.toList.map (fun c => c.toNat)

/-- Go `uint64(x) << k`: the shift is taken on 64-bit words, so any shift
amount of 64 or more yields 0, and the result wraps modulo 2^64. -/
def shlU64 (x k : Nat) : Nat :=
  if k < 64 then (x <<< k) % (2 ^ 64) else 0

/-- Go byte subtraction `c - k` (wraps modulo 256). -/
def byteSub (c k : Nat) : Nat :=
  (c + 256 - k % 256) % 256

/-! ## internal/header/header.go -/

/-- The 128-bit `mask` constant of `validHeaderFieldByte`
(src/internal/header/header.go, lines 42-60): one bit per allowed tchar
byte - digits, lowercase and uppercase ASCII letters, and the punctuation
bytes 33 35 36 37 38 39 42 43 45 46 94 95 96 124 126. -/
def fieldByteMask : Nat :=
  ((2 ^ 10 - 1) <<< 48) |||
  ((2 ^ 26 - 1) <<< 97) |||
  ((2 ^ 26 - 1) <<< 65) |||
  (1 <<< 33) |||
  (1 <<< 35) |||
  (1 <<< 36) |||
  (1 <<< 37) |||
  (1 <<< 38) |||
  (1 <<< 39) |||
  (1 <<< 42) |||
  (1 <<< 43) |||
  (1 <<< 45) |||
  (1 <<< 46) |||
  (1 <<< 94) |||
  (1 <<< 95) |||
  (1 <<< 96) |||
  (1 <<< 124) |||
  (1 <<< 126)

/-- `validHeaderFieldByte` (src/internal/header/header.go, lines 37-64):
tests byte `c` against the 128-bit bitmap using two uint64 shifts. -/
def validHeaderFieldByte (c : Nat) : Bool :=
  ((shlU64 1 c &&& (fieldByteMask &&& (2 ^ 64 - 1))) |||
   (shlU64 1 (byteSub c 64) &&& (fieldByteMask >>> 64))) != 0

/-- The 128-bit `mask` constant of `validHeaderValueByte`
(src/internal/header/header.go, lines 86-89): VCHAR %x21-7E, SP %x20 and
HTAB %x09. The function inverts this mask, so it marks allowed low bytes. -/
def valueByteMask : Nat :=
  ((2 ^ (0x7f - 0x21) - 1) <<< 0x21) |||
  (1 <<< 0x20) |||
  (1 <<< 0x09)

/-- `validHeaderValueByte` (src/internal/header/header.go, lines 80-93):
tests byte `c` with the inverted bitmap (`&^` is Go AND-NOT); bytes at or
above 0x80 make both shifted terms zero, hence are accepted (obs-text). -/
def validHeaderValueByte (c : Nat) : Bool :=
  ((shlU64 1 c &&& ((2 ^ 64 - 1) ^^^ (valueByteMask &&& (2 ^ 64 - 1)))) |||
   (shlU64 1 (byteSub c 64) &&& ((2 ^ 64 - 1) ^^^ (valueByteMask >>> 64)))) == 0

/-- `ValidHeaderField` (src/internal/header/header.go, lines 4-13):
every byte of the field name must pass `validHeaderFieldByte`. -/
def ValidHeaderField (field : GoStr) : Bool :=
  field.all validHeaderFieldByte

/-- `ValidHeaderValue` (src/internal/header/header.go, lines 16-25):
every byte of the field value must pass `validHeaderValueByte`. -/
def ValidHeaderValue (value : GoStr) : Bool :=
  value.all validHeaderValueByte

/-- Spec-side description of a tchar byte (claim C7): an ASCII letter, an
ASCII digit, or one of the punctuation bytes of `!#$%&~+-.^_|~` and the
apostrophe, asterisk and backtick - listed here by byte value. -/
def specTcharByte (c : Nat) : Bool :=
  (65 ≤ c && c ≤ 90) || (97 ≤ c && c ≤ 122) || (48 ≤ c && c ≤ 57) ||
  c == 33 || c == 35 || c == 36 || c == 37 || c == 38 || c == 39 ||
  c == 42 || c == 43 || c == 45 || c == 46 || c == 94 || c == 95 ||
  c == 96 || c == 124 || c == 126

/-- Spec-side description of a valid value byte (claim C7): HTAB, SP,
visible ASCII 0x21-0x7E, or extended-text 0x80-0xFF; DEL 0x7F and the other
control bytes are excluded. -/
def specValueByte (c : Nat) : Bool :=
  c == 9 || c == 32 || (33 ≤ c && c ≤ 126) || (128 ≤ c && c ≤ 255)

theorem validHeaderFieldByte_eq_spec : ∀ c : Fin 256, validHeaderFieldByte c.val = specTcharByte c.val := by decide

theorem validHeaderValueByte_eq_spec : ∀ c : Fin 256, validHeaderValueByte c.val = specValueByte c.val := by decide

/-- Claim C7: on byte strings, `ValidHeaderField` accepts exactly the
strings whose bytes are all tchar bytes (ASCII letters, digits, or the
fixed punctuation set), and `ValidHeaderValue` accepts exactly the strings
whose bytes are all HTAB, SP, visible ASCII or extended-text bytes -
control bytes, DEL included, are rejected. -/
theorem header_validators_byte_sets (s : GoStr) (hs : ∀ c ∈ s, c < 256) :
    (ValidHeaderField s = true ↔ ∀ c ∈ s, specTcharByte c = true) ∧
    (ValidHeaderValue s = true ↔ ∀ c ∈ s, specValueByte c = true) := by
  constructor
  · rw [ValidHeaderField, List.all_eq_true]
    constructor
    · intro h c hc
      rw [← validHeaderFieldByte_eq_spec ⟨c, hs c hc⟩]
      exact h c hc
    · intro h c hc
      rw [validHeaderFieldByte_eq_spec ⟨c, hs c hc⟩]
      exact h c hc
  · rw [ValidHeaderValue, List.all_eq_true]
    constructor
    · intro h c hc
      rw [← validHeaderValueByte_eq_spec ⟨c, hs c hc⟩]
      exact h c hc
    · intro h c hc
      rw [validHeaderValueByte_eq_spec ⟨c, hs c hc⟩]
      exact h c hc

/-- Witness for C7: concrete evaluation on the header name bytes of
"Content-Type" would be long, so a short mixed string is used: the name
"Ab" is all tchar, and the value bytes [32, 128, 127] contain DEL and are
therefore not all valid. -/
theorem header_validators_byte_sets_witness :
    (∀ c ∈ ([65, 98] : GoStr), c < 256) ∧
    (ValidHeaderField [65, 98] = true ↔ ∀ c ∈ ([65, 98] : GoStr), specTcharByte c = true) ∧
    (ValidHeaderValue [65, 98] = true ↔ ∀ c ∈ ([65, 98] : GoStr), specValueByte c = true) :=
  ⟨by decide, header_validators_byte_sets [65, 98] (by decide)⟩

/-! ## internal/experiment/experiment.go: header-block parsing -/

/-- ASCII whitespace bytes trimmed by Go strings.TrimSpace (the inputs
considered here are ASCII; the multi-byte Unicode space classes of the Go
function do not arise on single bytes below 128). -/
def isSpaceByte (c : Nat) : Bool :=
  c == 32 || c == 9 || c == 10 || c == 11 || c == 12 || c == 13

/-- Go strings.TrimSpace on a byte string. -/
def trimSpace (s : GoStr) : GoStr :=
  ((s.dropWhile isSpaceByte).reverse.dropWhile isSpaceByte).reverse

/-- Go strings.Split with a one-byte separator. -/
def splitOnByte (sep : Nat) : GoStr → List GoStr
  | [] => [[]]
  | c :: rest =>
    if c == sep then [] :: splitOnByte sep rest
    else
      match splitOnByte sep rest with
      | [] => [[c]]
      | hd :: tl => (c :: hd) :: tl

/-- Case folding loop of net/textproto canonicalMIMEHeaderKey: the first
byte and every byte following a hyphen is upper-cased, every other letter
lower-cased. -/
def canonLoop (upper : Bool) : GoStr → GoStr
  | [] => []
  | c :: rest =>
    let c2 :=
      if upper ∧ 97 ≤ c ∧ c ≤ 122 then c - 32
      else if ¬ upper ∧ 65 ≤ c ∧ c ≤ 90 then c + 32
      else c
    c2 :: canonLoop (c2 == 45) rest

/-- net/textproto CanonicalMIMEHeaderKey, used by http.Header.Set: a key
containing a non-token byte is returned unchanged, otherwise it is
canonicalized by case. -/
def canonicalMIMEHeaderKey (s : GoStr) : GoStr :=
  if s.any (fun c => !validHeaderFieldByte c) then s else canonLoop true s

/-- Replace the value of an existing key or append a new entry: the
association-list model of assigning one key of a Go map. -/
def setAssoc (h : List (GoStr × GoStr)) (key value : GoStr) : List (GoStr × GoStr) :=
  match h with
  | [] => [(key, value)]
  | kv :: rest => if kv.1 = key then (key, value) :: rest else kv :: setAssoc rest key value

/-- http.Header.Set (net/http): stores the single value under the
canonicalized key, replacing any previous values of that key. -/
def headerSet (h : List (GoStr × GoStr)) (name value : GoStr) : List (GoStr × GoStr) :=
  setAssoc h (canonicalMIMEHeaderKey name) value

/-- Validation limits of src/internal/experiment/experiment.go, lines 19-28. -/
def maxDynamicConfigLength : Nat := 10 * 1024

def maxURLLength : Nat := 1024

def maxBodyLength : Nat := 1024

def maxHeaders : Nat := 10

def maxHeaderNameLength : Nat := 100

def maxHeaderValueLength : Nat := 200

/-- The error cases of parseHeaders
(src/internal/experiment/experiment.go, lines 150-195), one constructor
per fmt.Errorf site, carrying the data interpolated into the message. -/
inductive HeaderError
  | invalidFormat (line : GoStr)
  | missingName (line : GoStr)
  | missingValue (line : GoStr)
  | nameTooLong (name : GoStr)
  | valueTooLong (name : GoStr)
  | invalidName (name : GoStr)
  | invalidValue (name : GoStr)
  | tooManyHeaders
deriving DecidableEq

/-- The message text of the tooManyHeaders error, from
src/internal/experiment/experiment.go line 188. -/
def tooManyHeadersMessage : String :=
  "too many headers (max " ++ toString maxHeaders ++ ")"

/-- The per-line loop of parseHeaders
(src/internal/experiment/experiment.go, lines 154-192): blank lines are
skipped; a line must split on exactly one colon; name and value are
trimmed, checked non-empty, length-capped and grammar-checked; the header
count cap is tested before each insertion; insertion goes through
http.Header.Set. -/
def parseHeadersLoop : List GoStr → List (GoStr × GoStr) → Except HeaderError (List (GoStr × GoStr))
  | [], headers => .ok headers
  | line :: rest, headers =>
    if trimSpace line = [] then parseHeadersLoop rest headers
    else
      match splitOnByte 58 line with
      | [p0, p1] =>
        let name := trimSpace p0
        let value := trimSpace p1
        if name = [] then .error (.missingName line)
        else if value = [] then .error (.missingValue line)
        else if name.length > maxHeaderNameLength then .error (.nameTooLong name)
        else if value.length > maxHeaderValueLength then .error (.valueTooLong name)
        else if !ValidHeaderField name then .error (.invalidName name)
        else if !ValidHeaderValue value then .error (.invalidValue name)
        else if headers.length ≥ maxHeaders then .error .tooManyHeaders
        else parseHeadersLoop rest (headerSet headers name value)
      | _ => .error (.invalidFormat line)

/-- parseHeaders (src/internal/experiment/experiment.go, lines 150-195). -/
def parseHeaders (rawHeaders : GoStr) : Except HeaderError (List (GoStr × GoStr)) :=
  parseHeadersLoop (splitOnByte 10 rawHeaders) []

/-- n distinct, individually valid header lines "Ha: v", "Hb: v", ... -/
def headerLinesRange (n : Nat) : List GoStr :=
  (List.range n).map (fun i => [72, 97 + i, 58, 32, 118])

/-- A header block of n lines separated by newlines. -/
def rawHeaderInput (n : Nat) : GoStr :=
  List.intercalate [10] (headerLinesRange n)

/-- Counterexample for C8: eleven distinct valid header lines are indeed
rejected with the too-many-headers error, but the message text produced by
the code is "too many headers (max 10)", not the "too many headers, max
10" stated by the claim. -/
theorem parseHeaders_cap_message_counterexample :
    parseHeaders (rawHeaderInput 11) = .error .tooManyHeaders ∧
    tooManyHeadersMessage ≠ "too many headers, max 10" := by
  decide

/-- Claim C8 (amended): a block of 11 distinct, individually valid header
lines is rejected with the too-many-headers error, whose message reads
"too many headers (max 10)", while a block of 10 distinct valid header
lines is accepted. -/
theorem parseHeaders_header_cap :
    parseHeaders (rawHeaderInput 11) = .error .tooManyHeaders ∧
    tooManyHeadersMessage = "too many headers (max 10)" ∧
    parseHeaders (rawHeaderInput 10) =
      .ok ((List.range 10).map (fun i => ([72, 97 + i], [118]))) := by
  decide

/-- Ten distinct header lines followed by a line repeating the first name:
11 non-blank lines, 10 distinct canonical names. -/
def lateRepeatLines : List GoStr :=
  headerLinesRange 10 ++ [[72, 97, 58, 32, 119]]

/-- A repeated name in position two, followed by nine fresh names: 11
non-blank lines, 10 distinct canonical names, every line processed while
fewer than 10 names are stored. -/
def earlyRepeatLines : List GoStr :=
  [72, 97, 58, 32, 118] :: [72, 97, 58, 32, 119] ::
    (List.range 9).map (fun i => [72, 98 + i, 58, 32, 118])

/-- Counterexample for C10: an input of 11 non-blank lines whose distinct
canonical names number exactly 10 is nevertheless rejected when the
repeated name arrives after ten distinct names are already stored, because
the count cap is tested before each insertion. -/
theorem parseHeaders_late_repeat_counterexample :
    lateRepeatLines.length = 11 ∧
    ((lateRepeatLines.map
        (fun l => canonicalMIMEHeaderKey (trimSpace ((splitOnByte 58 l).headD [])))).dedup).length = 10 ∧
    (∀ l ∈ lateRepeatLines, trimSpace l ≠ []) ∧
    parseHeaders (List.intercalate [10] lateRepeatLines) = .error .tooManyHeaders := by
  decide


theorem setAssoc_setAssoc (h : List (GoStr × GoStr)) (k v1 v2 : GoStr) :
    setAssoc (setAssoc h k v1) k v2 = setAssoc h k v2 := by
  induction h with
  | nil => simp [setAssoc]
  | cons kv rest ih =>
    by_cases hk : kv.1 = k
    · simp [setAssoc, hk]
    · simp [setAssoc, hk, ih]

theorem length_setAssoc (h : List (GoStr × GoStr)) (k v1 v2 : GoStr) :
    (setAssoc h k v1).length = (setAssoc h k v2).length := by
  induction h with
  | nil => rfl
  | cons kv rest ih =>
    by_cases hk : kv.1 = k <;> simp [setAssoc, hk, ih]

theorem mem_setAssoc (h : List (GoStr × GoStr)) (k v : GoStr) (kv : GoStr × GoStr)
    (hm : kv ∈ setAssoc h k v) : kv ∈ h ∨ kv = (k, v) := by
  induction h with
  | nil =>
    simp [setAssoc] at hm
    exact Or.inr hm
  | cons kv0 rest ih =>
    by_cases hk : kv0.1 = k
    · simp only [setAssoc, if_pos hk, List.mem_cons] at hm
      rcases hm with hm | hm
      · exact Or.inr (by simp [hm])
      · exact Or.inl (by simp [hm])
    · simp only [setAssoc, if_neg hk, List.mem_cons] at hm
      rcases hm with hm | hm
      · exact Or.inl (by simp [hm])
      · rcases ih hm with hmm | hmm
        · exact Or.inl (by simp [hmm])
        · exact Or.inr hmm

/-- The byte transform of one canonLoop step. -/
def canonByte (upper : Bool) (c : Nat) : Nat :=
  if upper ∧ 97 ≤ c ∧ c ≤ 122 then c - 32
  else if ¬ upper ∧ 65 ≤ c ∧ c ≤ 90 then c + 32
  else c

theorem canonLoop_cons (u : Bool) (c : Nat) (rest : GoStr) :
    canonLoop u (c :: rest) = canonByte u c :: canonLoop (canonByte u c == 45) rest := rfl

theorem canonByte_canonByte (u : Bool) (c : Nat) :
    canonByte u (canonByte u c) = canonByte u c := by
  unfold canonByte
  split_ifs <;> simp_all <;> omega

theorem canonLoop_idem (s : GoStr) : ∀ u : Bool, canonLoop u (canonLoop u s) = canonLoop u s := by
  induction s with
  | nil => intro u; rfl
  | cons c rest ih =>
    intro u
    rw [canonLoop_cons, canonLoop_cons, canonByte_canonByte, ih]

theorem validTcharUpper : ∀ i : Fin 26, validHeaderFieldByte (65 + i.val) = true := by decide

theorem validTcharLower : ∀ i : Fin 26, validHeaderFieldByte (97 + i.val) = true := by decide

theorem canonByte_valid (u : Bool) (c : Nat) (h : validHeaderFieldByte c = true) :
    validHeaderFieldByte (canonByte u c) = true := by
  unfold canonByte
  split_ifs with h1 h2
  · have e : c - 32 = 65 + (c - 97) := by omega
    rw [e]
    exact validTcharUpper ⟨c - 97, by omega⟩
  · have e : c + 32 = 97 + (c - 65) := by omega
    rw [e]
    exact validTcharLower ⟨c - 65, by omega⟩
  · exact h

theorem canonLoop_all_valid (s : GoStr) :
    ∀ u : Bool, (∀ c ∈ s, validHeaderFieldByte c = true) →
      ∀ c ∈ canonLoop u s, validHeaderFieldByte c = true := by
  induction s with
  | nil => intro u _ c hc; simp [canonLoop] at hc
  | cons c0 rest ih =>
    intro u hall c hc
    rw [canonLoop_cons] at hc
    rcases List.mem_cons.mp hc with hc | hc
    · rw [hc]
      exact canonByte_valid u c0 (hall c0 (by simp))
    · exact ih _ (fun x hx => hall x (by simp [hx])) c hc

theorem canonicalMIMEHeaderKey_idem (s : GoStr) :
    canonicalMIMEHeaderKey (canonicalMIMEHeaderKey s) = canonicalMIMEHeaderKey s := by
  unfold canonicalMIMEHeaderKey
  by_cases hvalid : s.any (fun c => !validHeaderFieldByte c) = true
  · simp [hvalid]
  · have hall : ∀ c ∈ s, validHeaderFieldByte c = true := by
      intro c hc
      by_contra hbad
      exact hvalid (List.any_eq_true.mpr ⟨c, hc, by simp [hbad]⟩)
    have hloop := canonLoop_all_valid s true hall
    have hany2 : ¬ ((canonLoop true s).any (fun c => !validHeaderFieldByte c) = true) := by
      intro hbad
      obtain ⟨c, hc, hcbad⟩ := List.any_eq_true.mp hbad
      simp [hloop c hc] at hcbad
    simp only [if_neg hvalid, if_neg hany2]
    exact canonLoop_idem s true

/-- The per-line body of parseHeaders, without the recursion: check and
insert one non-blank line into the headers accumulated so far. -/
def lineCheck (line : GoStr) (headers : List (GoStr × GoStr)) :
    Except HeaderError (List (GoStr × GoStr)) :=
  match splitOnByte 58 line with
  | [p0, p1] =>
    let name := trimSpace p0
    let value := trimSpace p1
    if name = [] then .error (.missingName line)
    else if value = [] then .error (.missingValue line)
    else if name.length > maxHeaderNameLength then .error (.nameTooLong name)
    else if value.length > maxHeaderValueLength then .error (.valueTooLong name)
    else if !ValidHeaderField name then .error (.invalidName name)
    else if !ValidHeaderValue value then .error (.invalidValue name)
    else if headers.length ≥ maxHeaders then .error .tooManyHeaders
    else .ok (headerSet headers name value)
  | _ => .error (.invalidFormat line)

theorem parseHeadersLoop_cons (line : GoStr) (rest : List GoStr)
    (acc : List (GoStr × GoStr)) :
    parseHeadersLoop (line :: rest) acc =
      if trimSpace line = [] then parseHeadersLoop rest acc
      else
        match lineCheck line acc with
        | .error e => .error e
        | .ok acc2 => parseHeadersLoop rest acc2 := by
  by_cases hblank : trimSpace line = []
  · simp [parseHeadersLoop, hblank]
  · simp only [parseHeadersLoop, lineCheck, if_neg hblank]
    rcases hsp : splitOnByte 58 line with _ | ⟨p0, _ | ⟨p1, _ | ⟨p2, ps⟩⟩⟩ <;>
      (dsimp only
       all_goals first | rfl | (split_ifs <;> rfl))

theorem lineCheck_full (line : GoStr) (headers : List (GoStr × GoStr))
    (hfull : maxHeaders ≤ headers.length) :
    ∃ e, lineCheck line headers = .error e := by
  unfold lineCheck
  rcases splitOnByte 58 line with _ | ⟨p0, _ | ⟨p1, _ | ⟨p2, ps⟩⟩⟩ <;> dsimp only <;>
    first
      | exact ⟨_, rfl⟩
      | (split_ifs <;> exact ⟨_, rfl⟩)

theorem lineCheck_ok_shape (line : GoStr) (headers acc2 : List (GoStr × GoStr))
    (hok : lineCheck line headers = .ok acc2) :
    ∃ name value, acc2 = headerSet headers name value ∧ headers.length < maxHeaders := by
  unfold lineCheck at hok
  rcases hsp : splitOnByte 58 line with _ | ⟨p0, _ | ⟨p1, _ | ⟨p2, ps⟩⟩⟩ <;>
    (rw [hsp] at hok; dsimp only at hok)
  · exact absurd hok (by simp)
  · exact absurd hok (by simp)
  · split_ifs at hok <;> cases hok
    exact ⟨trimSpace p0, trimSpace p1, rfl, by omega⟩
  · exact absurd hok (by simp)

theorem parseHeadersLoop_reject_when_full (lines : List GoStr) :
    ∀ acc : List (GoStr × GoStr), maxHeaders ≤ acc.length →
      (∃ l ∈ lines, trimSpace l ≠ []) →
      ∃ e, parseHeadersLoop lines acc = Except.error e := by
  induction lines with
  | nil =>
    intro acc hfull hnb
    simp at hnb
  | cons line rest ih =>
    intro acc hfull hnb
    rw [parseHeadersLoop_cons]
    by_cases hblank : trimSpace line = []
    · rw [if_pos hblank]
      refine ih acc hfull ?_
      obtain ⟨l, hl, hlnb⟩ := hnb
      rcases List.mem_cons.mp hl with hl | hl
      · exact absurd (hl ▸ hblank) hlnb
      · exact ⟨l, hl, hlnb⟩
    · rw [if_neg hblank]
      obtain ⟨e, he⟩ := lineCheck_full line acc hfull
      exact ⟨e, by rw [he]⟩

theorem parseHeadersLoop_append (pre post : List GoStr) :
    ∀ (acc h : List (GoStr × GoStr)),
      parseHeadersLoop (pre ++ post) acc = .ok h →
      ∃ mid, parseHeadersLoop pre acc = .ok mid ∧ parseHeadersLoop post mid = .ok h := by
  induction pre with
  | nil =>
    intro acc h hok
    exact ⟨acc, rfl, hok⟩
  | cons line rest ih =>
    intro acc h hok
    rw [List.cons_append, parseHeadersLoop_cons] at hok
    rw [parseHeadersLoop_cons]
    by_cases hblank : trimSpace line = []
    · rw [if_pos hblank] at hok ⊢
      exact ih acc h hok
    · rw [if_neg hblank] at hok ⊢
      cases hc : lineCheck line acc with
      | error e => rw [hc] at hok; exact absurd hok (by simp)
      | ok acc2 =>
        rw [hc] at hok
        exact ih acc2 h hok

theorem parseHeadersLoop_keys_canonical (lines : List GoStr) :
    ∀ (acc h : List (GoStr × GoStr)),
      (∀ kv ∈ acc, canonicalMIMEHeaderKey kv.1 = kv.1) →
      parseHeadersLoop lines acc = .ok h →
      ∀ kv ∈ h, canonicalMIMEHeaderKey kv.1 = kv.1 := by
  induction lines with
  | nil =>
    intro acc h hacc hok
    simp only [parseHeadersLoop] at hok
    injection hok with hok
    exact hok ▸ hacc
  | cons line rest ih =>
    intro acc h hacc hok
    rw [parseHeadersLoop_cons] at hok
    by_cases hblank : trimSpace line = []
    · rw [if_pos hblank] at hok
      exact ih acc h hacc hok
    · rw [if_neg hblank] at hok
      cases hc : lineCheck line acc with
      | error e => rw [hc] at hok; exact absurd hok (by simp)
      | ok acc2 =>
        rw [hc] at hok
        obtain ⟨name, value, hshape, _⟩ := lineCheck_ok_shape line acc acc2 hc
        refine ih acc2 h ?_ hok
        intro kv hkv
        rw [hshape] at hkv
        rcases mem_setAssoc acc (canonicalMIMEHeaderKey name) value kv hkv with hm | hm
        · exact hacc kv hm
        · rw [hm]
          exact canonicalMIMEHeaderKey_idem name

set_option maxHeartbeats 1000000 in
/-- Claim C10 (amended): in parseHeaders, a line whose name canonicalizes
equal to the name of an earlier line overwrites the earlier value instead
of adding a second value and leaves the stored header count unchanged, and
the names stored by any accepted input are in canonical form; repeated
names are however not exempt from the 10-header cap, which is tested
before each insertion against the number of distinct names stored so far:
once 10 names are stored every remaining non-blank line - a repeat
included - is rejected, so an accepted input reaches every point of its
line list at which a non-blank line remains with fewer than 10 stored
names; hence an input of 11 non-blank lines with 10 distinct canonical
names is accepted when its repeat precedes the 10th distinct name and
rejected when the repeat follows it. -/
theorem parseHeaders_overwrite_canonical_cap :
    (∀ (h : List (GoStr × GoStr)) (n1 v1 n2 v2 : GoStr),
      canonicalMIMEHeaderKey n1 = canonicalMIMEHeaderKey n2 →
        headerSet (headerSet h n1 v1) n2 v2 = headerSet h n2 v2 ∧
        (headerSet (headerSet h n1 v1) n2 v2).length = (headerSet h n1 v1).length) ∧
    (∀ (raw : GoStr) (h : List (GoStr × GoStr)), parseHeaders raw = .ok h →
      ∀ kv ∈ h, canonicalMIMEHeaderKey kv.1 = kv.1) ∧
    (∀ (lines : List GoStr) (acc : List (GoStr × GoStr)),
      maxHeaders ≤ acc.length → (∃ l ∈ lines, trimSpace l ≠ []) →
      ∃ e, parseHeadersLoop lines acc = Except.error e) ∧
    (∀ (raw : GoStr) (pre post : List GoStr) (h : List (GoStr × GoStr)),
      splitOnByte 10 raw = pre ++ post → parseHeaders raw = .ok h →
      (∃ l ∈ post, trimSpace l ≠ []) →
      ∃ mid, parseHeadersLoop pre [] = .ok mid ∧ parseHeadersLoop post mid = .ok h ∧
        mid.length < maxHeaders) ∧
    parseHeaders (strBytes "content-type: a\nContent-Type: b") =
      .ok [(strBytes "Content-Type", strBytes "b")] ∧
    parseHeaders (List.intercalate [10] earlyRepeatLines) =
      .ok (([72, 97], [119]) :: (List.range 9).map (fun i => ([72, 98 + i], [118]))) ∧
    parseHeaders (List.intercalate [10] lateRepeatLines) = .error .tooManyHeaders := by
  refine ⟨?_, ?_, ?_, ?_, by decide, by decide, by decide⟩
  · intro h n1 v1 n2 v2 hc
    unfold headerSet
    rw [hc]
    refine ⟨setAssoc_setAssoc h (canonicalMIMEHeaderKey n2) v1 v2, ?_⟩
    rw [setAssoc_setAssoc]
    exact length_setAssoc h (canonicalMIMEHeaderKey n2) v2 v1
  · intro raw h hok
    exact parseHeadersLoop_keys_canonical (splitOnByte 10 raw) [] h (by simp) hok
  · exact fun lines acc h1 h2 => parseHeadersLoop_reject_when_full lines acc h1 h2
  · intro raw pre post h hsplit hok hpost
    rw [parseHeaders, hsplit] at hok
    obtain ⟨mid, hmid1, hmid2⟩ := parseHeadersLoop_append pre post [] h hok
    refine ⟨mid, hmid1, hmid2, ?_⟩
    by_contra hge
    obtain ⟨e, he⟩ := parseHeadersLoop_reject_when_full post mid (by omega) hpost
    rw [he] at hmid2
    exact absurd hmid2 (by simp)

/-- Witness for C10: the overwrite clause of the amended theorem applied
at the concrete repeated canonical name pair of the claim. -/
theorem parseHeaders_overwrite_canonical_cap_witness :
    canonicalMIMEHeaderKey (strBytes "content-type") =
      canonicalMIMEHeaderKey (strBytes "Content-Type") ∧
    headerSet (headerSet [] (strBytes "content-type") (strBytes "a"))
        (strBytes "Content-Type") (strBytes "b") =
      headerSet [] (strBytes "Content-Type") (strBytes "b") :=
  ⟨by decide,
    (parseHeaders_overwrite_canonical_cap.1 [] (strBytes "content-type") (strBytes "a")
      (strBytes "Content-Type") (strBytes "b") (by decide)).1⟩


/-! ## internal/experiment/experiment.go: Experiment model and validator -/

/-- HTTPRequest (src/internal/experiment/experiment.go, lines 80-85). -/
structure HTTPRequest where
  method : GoStr
  url : GoStr
  headers : List (GoStr × GoStr)
  body : GoStr
deriving DecidableEq

/-- Experiment (src/internal/experiment/experiment.go, lines 31-34). -/
structure Experiment where
  dynamicConfig : GoStr
  request : HTTPRequest
deriving DecidableEq

/-- The error cases of MakeHTTPRequest
(src/internal/experiment/experiment.go, lines 112-131), one constructor
per error site, in source order. -/
inductive RequestError
  | methodRequired
  | methodNotAllowed (method : GoStr)
  | urlRequired
  | urlTooLong
  | bodyTooLong
  | urlInvalid
  | header (e : HeaderError)
deriving DecidableEq

/-- The error cases of MakeExperiment
(src/internal/experiment/experiment.go, lines 38-50). -/
inductive ExperimentError
  | dynamicConfigTooLong
  | invalidDynamicConfig
  | request (e : RequestError)
deriving DecidableEq

/-- availableMethods (src/internal/experiment/experiment.go, lines 104-110). -/
def availableMethods : List GoStr :=
  [strBytes "GET", strBytes "POST", strBytes "PUT", strBytes "DELETE", strBytes "PATCH"]

/-- MakeHTTPRequest (src/internal/experiment/experiment.go, lines
103-140). The url parser is net/url ParseRequestURI, external to the
repository, taken as a boolean oracle parameter; the switch of the source
is the equivalent if-chain, followed by the url parse and header parsing. -/
def MakeHTTPRequest (parseRequestURIOk : GoStr → Bool)
    (method url headers body : GoStr) : Except RequestError HTTPRequest :=
  if method = [] then .error .methodRequired
  else if !availableMethods.contains method then .error (.methodNotAllowed method)
  else if url = [] then .error .urlRequired
  else if url.length > maxURLLength then .error .urlTooLong
  else if body.length > maxBodyLength then .error .bodyTooLong
  else if !parseRequestURIOk url then .error .urlInvalid
  else
    match parseHeaders headers with
    | .error e => .error (.header e)
    | .ok parsedHeaders => .ok ⟨method, url, parsedHeaders, body⟩

/-- MakeExperiment (src/internal/experiment/experiment.go, lines 37-56).
The dynamic-configuration grammar check is delegated to the yaml decoder
of the Traefik configuration type, external to the repository, taken as a
boolean oracle parameter. -/
def MakeExperiment (yamlOk parseRequestURIOk : GoStr → Bool)
    (dynamicConfig method url headers body : GoStr) : Except ExperimentError Experiment :=
  if dynamicConfig.length > maxDynamicConfigLength then .error .dynamicConfigTooLong
  else if !yamlOk dynamicConfig then .error .invalidDynamicConfig
  else
    match MakeHTTPRequest parseRequestURIOk method url headers body with
    | .error e => .error (.request e)
    | .ok req => .ok ⟨dynamicConfig, req⟩

/-- First triggered violation of an ordered check list (each entry pairs a
violation condition with its error): the spec-side reading of "the first
violation in that order is reported". -/
def firstFailing : List (Bool × ExperimentError) → Option ExperimentError
  | [] => none
  | (bad, e) :: rest => if bad then some e else firstFailing rest

/-- The header error of a failed header parse (arbitrary on success; only
used when the parse failed). -/
def headerErrOf : Except HeaderError (List (GoStr × GoStr)) → HeaderError
  | .error e => e
  | .ok _ => .tooManyHeaders

/-- The parsed headers of a successful header parse (arbitrary on failure;
only used when the parse succeeded). -/
def headersOf : Except HeaderError (List (GoStr × GoStr)) → List (GoStr × GoStr)
  | .error _ => []
  | .ok h => h

def exceptIsOk : Except HeaderError (List (GoStr × GoStr)) → Bool
  | .error _ => false
  | .ok _ => true

/-- First triggered request-level violation of an ordered check list. -/
def firstFailingReq : List (Bool × RequestError) → Option RequestError
  | [] => none
  | (bad, e) :: rest => if bad then some e else firstFailingReq rest

/-- The request-level validation order of claim C4, amended at one point:
the body length cap is tested before url parseability (the source tests
the body cap inside the switch, before calling the url parser). -/
def orderedRequestChecks (parseRequestURIOk : GoStr → Bool)
    (method url headers body : GoStr) : List (Bool × RequestError) :=
  [ (decide (method = []), .methodRequired),
    (!availableMethods.contains method, .methodNotAllowed method),
    (decide (url = []), .urlRequired),
    (decide (url.length > maxURLLength), .urlTooLong),
    (decide (body.length > maxBodyLength), .bodyTooLong),
    (!parseRequestURIOk url, .urlInvalid),
    (!exceptIsOk (parseHeaders headers), .header (headerErrOf (parseHeaders headers))) ]

/-- Spec-side request validator: report the first violation of the ordered
request check list, otherwise assemble the full HTTPRequest. -/
def specMakeHTTPRequest (parseRequestURIOk : GoStr → Bool)
    (method url headers body : GoStr) : Except RequestError HTTPRequest :=
  match firstFailingReq (orderedRequestChecks parseRequestURIOk method url headers body) with
  | some e => .error e
  | none => .ok ⟨method, url, headersOf (parseHeaders headers), body⟩

/-- The experiment-level validation order of claim C4: configuration
length cap, configuration grammar, then the request checks in order. -/
def orderedChecks (yamlOk parseRequestURIOk : GoStr → Bool)
    (dynamicConfig method url headers body : GoStr) : List (Bool × ExperimentError) :=
  (decide (dynamicConfig.length > maxDynamicConfigLength), .dynamicConfigTooLong) ::
  (!yamlOk dynamicConfig, .invalidDynamicConfig) ::
  (orderedRequestChecks parseRequestURIOk method url headers body).map
    (fun be => (be.1, .request be.2))

/-- Spec-side validator: report the first violation of the ordered check
list, otherwise assemble the full Experiment. -/
def specMakeExperiment (yamlOk parseRequestURIOk : GoStr → Bool)
    (dynamicConfig method url headers body : GoStr) : Except ExperimentError Experiment :=
  match firstFailing (orderedChecks yamlOk parseRequestURIOk dynamicConfig method url headers body) with
  | some e => .error e
  | none => .ok ⟨dynamicConfig, ⟨method, url, headersOf (parseHeaders headers), body⟩⟩

theorem makeHTTPRequest_eq_spec (parseRequestURIOk : GoStr → Bool)
    (method url headers body : GoStr) :
    MakeHTTPRequest parseRequestURIOk method url headers body =
      specMakeHTTPRequest parseRequestURIOk method url headers body := by
  cases hp : parseHeaders headers with
  | error e =>
    simp only [MakeHTTPRequest, specMakeHTTPRequest, orderedRequestChecks, firstFailingReq,
      decide_eq_true_eq, Bool.not_eq_true', hp, headerErrOf, exceptIsOk]
    split_ifs <;> simp_all
  | ok parsedHeaders =>
    simp only [MakeHTTPRequest, specMakeHTTPRequest, orderedRequestChecks, firstFailingReq,
      decide_eq_true_eq, Bool.not_eq_true', hp, headerErrOf, headersOf, exceptIsOk]
    split_ifs <;> simp_all

/-- A url-parse oracle rejecting every url, used to exhibit an input whose
url is unparseable. -/
def noURLParses : GoStr → Bool := fun _ => false

def longBody : GoStr := List.replicate 1025 97

/-- Counterexample for C4: for an input whose url is unparseable (under
the given parse oracle) and whose body also exceeds the cap, the reported
error is the body-length error, not the url error as the claim states: the
source tests the body cap inside its switch, before ever calling the url
parser. -/
theorem makeHTTPRequest_body_before_url_counterexample :
    noURLParses (strBytes "http://example.com") = false ∧
    longBody.length > maxBodyLength ∧
    MakeHTTPRequest noURLParses (strBytes "GET") (strBytes "http://example.com") [] longBody =
      .error .bodyTooLong ∧
    RequestError.bodyTooLong ≠ RequestError.urlInvalid := by
  refine ⟨rfl, by simp [longBody, maxBodyLength], ?_, by decide⟩
  have hb : (1024 : Nat) < longBody.length := by simp [longBody, maxBodyLength]
  simp [MakeHTTPRequest, maxBodyLength, maxURLLength, hb, availableMethods, strBytes, noURLParses]

set_option maxHeartbeats 1000000 in
/-- Claim C4 (amended): MakeExperiment and MakeHTTPRequest validate in the
order configuration length cap, configuration grammar (delegated), method
non-empty and in the allow-list, url non-empty then bounded, body length
cap, url parseable, header-block parsing; the returned error is always the
first violation in that order, and on any failure no partial Experiment is
returned (the result is an error and nothing else). -/
theorem makeExperiment_first_violation (yamlOk parseRequestURIOk : GoStr → Bool)
    (dynamicConfig method url headers body : GoStr) :
    MakeExperiment yamlOk parseRequestURIOk dynamicConfig method url headers body =
      specMakeExperiment yamlOk parseRequestURIOk dynamicConfig method url headers body := by
  rw [MakeExperiment, makeHTTPRequest_eq_spec]
  simp only [specMakeExperiment, orderedChecks, orderedRequestChecks, firstFailing,
    firstFailingReq, specMakeHTTPRequest, List.map_cons, List.map_nil,
    decide_eq_true_eq, Bool.not_eq_true']
  split_ifs <;> rfl

/-! ## internal/command/pool.go: WorkerPool

WorkerPool.Spawn (src/internal/command/pool.go, lines 36-67) is modelled as
a labelled transition system over the positions its concurrent callers can
occupy between the atomic actions of the source: the admission test and
waitQueueDepth increment under the mutex, the select on context
cancellation versus permit receipt, the waitQueueDepth decrement under the
mutex, the command execution and the deferred permit release. The permit
channel of capacity maxSlots is the `permits` counter of free permits. -/

/-- Position of one Spawn caller inside the Spawn body. -/
inductive CallerPhase
  | start
  | rejected
  | waiting
  | gotPermit
  | cancelledSel
  | executing
  | doneCancelled
  | doneExec
deriving DecidableEq

/-- Shared pool state plus the phase of every caller. -/
structure PoolState where
  permits : Nat
  waitDepth : Nat
  callers : List CallerPhase
deriving DecidableEq

/-- The state after NewWorkerPool (src/internal/command/pool.go, lines
23-33): the permit channel filled with maxSlots permits, zero wait depth,
and n callers about to call Spawn. -/
def initPoolState (maxSlots n : Nat) : PoolState :=
  ⟨maxSlots, 0, List.replicate n .start⟩

/-- Number of callers in phases selected by p. -/
def countPh (p : CallerPhase → Bool) : List CallerPhase → Nat
  | [] => 0
  | c :: rest => (if p c then 1 else 0) + countPh p rest

/-- A caller holding a permit not yet released. -/
def isHolder : CallerPhase → Bool
  | .gotPermit => true
  | .executing => true
  | _ => false

/-- A caller counted by waitQueueDepth: from the increment under the mutex
until the decrement under the mutex, whichever way the select resolved. -/
def isWaiter : CallerPhase → Bool
  | .waiting => true
  | .gotPermit => true
  | .cancelledSel => true
  | _ => false

def isExecuting : CallerPhase → Bool
  | .executing => true
  | _ => false

/-- A caller whose Spawn call has returned. -/
def isTerminal : CallerPhase → Bool
  | .rejected => true
  | .doneCancelled => true
  | .doneExec => true
  | _ => false

/-- One atomic action of one caller, following the source line by line:
admission rejection (line 39-42), admission (line 44), permit receipt
(line 51), context cancellation (lines 49-50), the decrement after either
select outcome (lines 54-56) leading to execution or to returning the
cancellation error (lines 58-60), and command completion with the deferred
permit release (lines 62-66), on command success and failure alike. -/
inductive PoolStep (maxSlots maxWait : Nat) : PoolState → PoolState → Prop where
  | admitReject (t : PoolState) (i : Nat) (hc : t.callers.get? i = some .start)
      (hfull : maxWait ≤ t.waitDepth) :
      PoolStep maxSlots maxWait t ⟨t.permits, t.waitDepth, t.callers.set i .rejected⟩
  | admitOk (t : PoolState) (i : Nat) (hc : t.callers.get? i = some .start)
      (hroom : t.waitDepth < maxWait) :
      PoolStep maxSlots maxWait t ⟨t.permits, t.waitDepth + 1, t.callers.set i .waiting⟩
  | acquire (t : PoolState) (i : Nat) (hc : t.callers.get? i = some .waiting)
      (hp : 0 < t.permits) :
      PoolStep maxSlots maxWait t ⟨t.permits - 1, t.waitDepth, t.callers.set i .gotPermit⟩
  | cancelSel (t : PoolState) (i : Nat) (hc : t.callers.get? i = some .waiting) :
      PoolStep maxSlots maxWait t ⟨t.permits, t.waitDepth, t.callers.set i .cancelledSel⟩
  | decPermit (t : PoolState) (i : Nat) (hc : t.callers.get? i = some .gotPermit) :
      PoolStep maxSlots maxWait t ⟨t.permits, t.waitDepth - 1, t.callers.set i .executing⟩
  | decCancel (t : PoolState) (i : Nat) (hc : t.callers.get? i = some .cancelledSel) :
      PoolStep maxSlots maxWait t ⟨t.permits, t.waitDepth - 1, t.callers.set i .doneCancelled⟩
  | finish (t : PoolState) (i : Nat) (hc : t.callers.get? i = some .executing) :
      PoolStep maxSlots maxWait t ⟨t.permits + 1, t.waitDepth, t.callers.set i .doneExec⟩

/-- States reachable from a fresh pool with n concurrent Spawn callers. -/
def PoolReachable (maxSlots maxWait n : Nat) (s : PoolState) : Prop :=
  Relation.ReflTransGen (PoolStep maxSlots maxWait) (initPoolState maxSlots n) s

/-- The inductive invariant: free permits plus held permits equal
maxSlots, waitDepth counts exactly the callers between the increment and
the decrement, and that count never exceeds maxWait. -/
def PoolInv (maxSlots maxWait : Nat) (s : PoolState) : Prop :=
  s.permits + countPh isHolder s.callers = maxSlots ∧
  s.waitDepth = countPh isWaiter s.callers ∧
  countPh isWaiter s.callers ≤ maxWait

theorem countPh_set (p : CallerPhase → Bool) (l : List CallerPhase) (i : Nat)
    (a b : CallerPhase) (h : l.get? i = some a) :
    countPh p (l.set i b) + (if p a then 1 else 0) = countPh p l + (if p b then 1 else 0) := by
  induction l generalizing i with
  | nil => simp at h
  | cons c rest ih =>
    cases i with
    | zero =>
      simp only [List.get?] at h
      injection h with h
      subst h
      simp [List.set, countPh]
      omega
    | succ j =>
      simp only [List.get?] at h
      have := ih j h
      simp only [List.set, countPh]
      omega

theorem countPh_mono (p q : CallerPhase → Bool) (hpq : ∀ ph, p ph = true → q ph = true)
    (l : List CallerPhase) : countPh p l ≤ countPh q l := by
  induction l with
  | nil => simp [countPh]
  | cons c rest ih =>
    simp only [countPh]
    by_cases hc : p c
    · simp [hc, hpq c hc]
      omega
    · simp [hc]
      split <;> omega

theorem countPh_eq_zero (p : CallerPhase → Bool) (l : List CallerPhase)
    (h : ∀ x ∈ l, p x = false) : countPh p l = 0 := by
  induction l with
  | nil => rfl
  | cons c rest ih =>
    simp only [countPh]
    rw [h c (by simp), ih (fun x hx => h x (by simp [hx]))]
    simp

theorem countPh_replicate_start (p : CallerPhase → Bool) (n : Nat)
    (h : p .start = false) : countPh p (List.replicate n .start) = 0 := by
  induction n with
  | zero => rfl
  | succ m ih => simp [List.replicate, countPh, h, ih]

theorem poolInv_init (maxSlots maxWait n : Nat) :
    PoolInv maxSlots maxWait (initPoolState maxSlots n) := by
  refine ⟨?_, ?_, ?_⟩ <;>
    simp [initPoolState, countPh_replicate_start, isHolder, isWaiter]

theorem poolInv_step {maxSlots maxWait : Nat} {s s2 : PoolState}
    (hstep : PoolStep maxSlots maxWait s s2) (hinv : PoolInv maxSlots maxWait s) :
    PoolInv maxSlots maxWait s2 := by
  obtain ⟨hperm, hdepth, hbound⟩ := hinv
  cases hstep with
  | admitReject i hc hfull =>
    have hH := countPh_set isHolder s.callers i _ .rejected hc
    have hW := countPh_set isWaiter s.callers i _ .rejected hc
    simp [isHolder, isWaiter] at hH hW
    exact ⟨by simpa using by omega, by simpa using by omega, by simpa using by omega⟩
  | admitOk i hc hroom =>
    have hH := countPh_set isHolder s.callers i _ .waiting hc
    have hW := countPh_set isWaiter s.callers i _ .waiting hc
    simp [isHolder, isWaiter] at hH hW
    exact ⟨by simpa using by omega, by simpa using by omega, by simpa using by omega⟩
  | acquire i hc hp =>
    have hH := countPh_set isHolder s.callers i _ .gotPermit hc
    have hW := countPh_set isWaiter s.callers i _ .gotPermit hc
    simp [isHolder, isWaiter] at hH hW
    exact ⟨by simpa using by omega, by simpa using by omega, by simpa using by omega⟩
  | cancelSel i hc =>
    have hH := countPh_set isHolder s.callers i _ .cancelledSel hc
    have hW := countPh_set isWaiter s.callers i _ .cancelledSel hc
    simp [isHolder, isWaiter] at hH hW
    exact ⟨by simpa using by omega, by simpa using by omega, by simpa using by omega⟩
  | decPermit i hc =>
    have hH := countPh_set isHolder s.callers i _ .executing hc
    have hW := countPh_set isWaiter s.callers i _ .executing hc
    simp [isHolder, isWaiter] at hH hW
    exact ⟨by simpa using by omega, by simpa using by omega, by simpa using by omega⟩
  | decCancel i hc =>
    have hH := countPh_set isHolder s.callers i _ .doneCancelled hc
    have hW := countPh_set isWaiter s.callers i _ .doneCancelled hc
    simp [isHolder, isWaiter] at hH hW
    exact ⟨by simpa using by omega, by simpa using by omega, by simpa using by omega⟩
  | finish i hc =>
    have hH := countPh_set isHolder s.callers i _ .doneExec hc
    have hW := countPh_set isWaiter s.callers i _ .doneExec hc
    simp [isHolder, isWaiter] at hH hW
    exact ⟨by simpa using by omega, by simpa using by omega, by simpa using by omega⟩

theorem poolInv_reachable {maxSlots maxWait n : Nat} {s : PoolState}
    (h : PoolReachable maxSlots maxWait n s) : PoolInv maxSlots maxWait s := by
  induction h with
  | refl => exact poolInv_init maxSlots maxWait n
  | tail _ hstep ih => exact poolInv_step hstep ih

/-- Claim C2: in every reachable pool state, under any interleaving of
admissions, rejections, permit acquisitions, cancellations, command
completions and failures, at most maxSlots commands execute concurrently,
free plus held permits always equal maxSlots (every acquired permit is
released on every exit path), the wait count never exceeds maxWait, and
once every caller has returned the pool again holds all maxSlots permits
with zero wait depth, admitting exactly maxSlots concurrent commands. -/
theorem workerPool_bounded_and_conserving (maxSlots maxWait n : Nat) (s : PoolState)
    (h : PoolReachable maxSlots maxWait n s) :
    countPh isExecuting s.callers ≤ maxSlots ∧
    s.permits + countPh isHolder s.callers = maxSlots ∧
    countPh isWaiter s.callers ≤ maxWait ∧
    ((∀ ph ∈ s.callers, isTerminal ph = true) →
      s.permits = maxSlots ∧ s.waitDepth = 0) := by
  obtain ⟨hperm, hdepth, hbound⟩ := poolInv_reachable h
  refine ⟨?_, hperm, hbound, ?_⟩
  · have hmono := countPh_mono isExecuting isHolder
      (fun ph => by cases ph <;> simp [isExecuting, isHolder]) s.callers
    omega
  · intro hterm
    have hzeroH : countPh isHolder s.callers = 0 :=
      countPh_eq_zero _ _ (fun x hx => by
        have := hterm x hx
        cases x <;> simp_all [isTerminal, isHolder])
    have hzeroW : countPh isWaiter s.callers = 0 :=
      countPh_eq_zero _ _ (fun x hx => by
        have := hterm x hx
        cases x <;> simp_all [isTerminal, isWaiter])
    omega

/-- Witness for C2: a full trace of one caller through admission, permit
acquisition, execution and completion, ending with the permit returned. -/
theorem workerPool_bounded_and_conserving_witness :
    PoolReachable 1 1 1 ⟨1, 0, [CallerPhase.doneExec]⟩ ∧
    (countPh isExecuting [CallerPhase.doneExec] ≤ 1 ∧
      (1 : Nat) + countPh isHolder [CallerPhase.doneExec] = 1 ∧
      countPh isWaiter [CallerPhase.doneExec] ≤ 1 ∧
      ((∀ ph ∈ [CallerPhase.doneExec], isTerminal ph = true) →
        (1 : Nat) = 1 ∧ (0 : Nat) = 0)) := by
  have htrace : PoolReachable 1 1 1 ⟨1, 0, [CallerPhase.doneExec]⟩ :=
    Relation.ReflTransGen.tail
      (Relation.ReflTransGen.tail
        (Relation.ReflTransGen.tail
          (Relation.ReflTransGen.tail Relation.ReflTransGen.refl
            (PoolStep.admitOk ⟨1, 0, [CallerPhase.start]⟩ 0 rfl (by decide)))
          (PoolStep.acquire ⟨1, 1, [CallerPhase.waiting]⟩ 0 rfl (by decide)))
        (PoolStep.decPermit ⟨0, 1, [CallerPhase.gotPermit]⟩ 0 rfl))
      (PoolStep.finish ⟨0, 0, [CallerPhase.executing]⟩ 0 rfl)
  exact ⟨htrace, workerPool_bounded_and_conserving 1 1 1 _ htrace⟩

theorem poolZeroWait_phases {maxSlots n : Nat} {s : PoolState}
    (h : PoolReachable maxSlots 0 n s) :
    ∀ ph ∈ s.callers, ph = CallerPhase.start ∨ ph = CallerPhase.rejected := by
  induction h with
  | refl =>
    intro ph hph
    exact Or.inl (List.eq_of_mem_replicate hph)
  | tail _ hstep ih =>
    cases hstep with
    | admitReject i hc hfull =>
      intro ph hph
      rcases List.mem_or_eq_of_mem_set hph with hmem | heq
      · exact ih ph hmem
      · exact Or.inr heq
    | admitOk i hc hroom => exact absurd hroom (Nat.not_lt_zero _)
    | acquire i hc hp =>
      rcases ih _ (List.get?_mem hc) with h1 | h1 <;> simp at h1
    | cancelSel i hc =>
      rcases ih _ (List.get?_mem hc) with h1 | h1 <;> simp at h1
    | decPermit i hc =>
      rcases ih _ (List.get?_mem hc) with h1 | h1 <;> simp at h1
    | decCancel i hc =>
      rcases ih _ (List.get?_mem hc) with h1 | h1 <;> simp at h1
    | finish i hc =>
      rcases ih _ (List.get?_mem hc) with h1 | h1 <;> simp at h1

/-- Claim C9: the wait counter counts every Spawn caller from the
admission test until the decrement after the select, not only blocked
waiters; consequently, for maxWaitQueueDepth = 0, no caller is ever
admitted - in every reachable state each caller is still at the admission
test or already rejected with the queue-full error, all maxSlots permits
remain free, and the rejecting step is enabled for every caller at the
admission test. -/
theorem spawn_waitDepth_counts_admitted (maxSlots maxWait n : Nat) (s : PoolState)
    (h : PoolReachable maxSlots maxWait n s) :
    s.waitDepth = countPh isWaiter s.callers ∧
    (maxWait = 0 →
      (∀ ph ∈ s.callers, ph = CallerPhase.start ∨ ph = CallerPhase.rejected) ∧
      s.permits = maxSlots ∧
      (∀ i, s.callers.get? i = some CallerPhase.start →
        PoolStep maxSlots maxWait s ⟨s.permits, s.waitDepth, s.callers.set i CallerPhase.rejected⟩)) := by
  obtain ⟨hperm, hdepth, hbound⟩ := poolInv_reachable h
  refine ⟨hdepth, ?_⟩
  intro hzero
  subst hzero
  have hphases := poolZeroWait_phases h
  refine ⟨hphases, ?_, ?_⟩
  · have hzeroH : countPh isHolder s.callers = 0 :=
      countPh_eq_zero _ _ (fun x hx => by
        rcases hphases x hx with h1 | h1 <;> simp [h1, isHolder])
    omega
  · intro i hc
    exact PoolStep.admitReject s i hc (Nat.zero_le _)

/-- Witness for C9: with maxWaitQueueDepth = 0, a single caller is
rejected at once even though both permits are free. -/
theorem spawn_waitDepth_counts_admitted_witness :
    PoolReachable 2 0 1 ⟨2, 0, [CallerPhase.rejected]⟩ ∧
    ((0 : Nat) = countPh isWaiter [CallerPhase.rejected] ∧
      ((0 : Nat) = 0 →
        (∀ ph ∈ [CallerPhase.rejected],
          ph = CallerPhase.start ∨ ph = CallerPhase.rejected) ∧
        (2 : Nat) = 2 ∧
        (∀ i, ([CallerPhase.rejected] : List CallerPhase).get? i = some CallerPhase.start →
          PoolStep 2 0 ⟨2, 0, [CallerPhase.rejected]⟩
            ⟨2, 0, ([CallerPhase.rejected] : List CallerPhase).set i CallerPhase.rejected⟩))) := by
  have htrace : PoolReachable 2 0 1 ⟨2, 0, [CallerPhase.rejected]⟩ :=
    Relation.ReflTransGen.tail Relation.ReflTransGen.refl
      (PoolStep.admitReject ⟨2, 0, [CallerPhase.start]⟩ 0 rfl (Nat.zero_le _))
  exact ⟨htrace, spawn_waitDepth_counts_admitted 2 0 1 _ htrace⟩

/-! ## Error kinds: the queue-full error and Controller.Run normalization -/

/-- Go error values relevant to the pipeline: the context sentinel errors,
the sentinel errors of the experiment package, plain errors made from a
message, and fmt.Errorf wrapping with the w verb. -/
inductive GoError
  | deadlineExceeded
  | canceled
  | runTimeout
  | notFound
  | message (m : String)
  | wrap (m : String) (inner : GoError)
deriving DecidableEq

/-- Go errors.Is over this error model: equality with the target, or
unwrapping through wrap layers (none of the modelled errors has an Is
method). -/
def errorsIs (e target : GoError) : Bool :=
  if e = target then true
  else
    match e with
    | .wrap _ inner => errorsIs inner target
    | _ => false

/-- The queue-full rejection error of WorkerPool.Spawn
(src/internal/command/pool.go, line 42): the message "too many commands in
the queue" wrapping context.DeadlineExceeded. -/
def queueFullError : GoError :=
  .wrap "too many commands in the queue" .deadlineExceeded

/-- The error normalization of Controller.Run
(src/internal/experiment/experiment.go, lines 245-252): an error passing
errors.Is for context.DeadlineExceeded or context.Canceled becomes
ErrRunTimeout, any other error is wrapped as an internal failure.
Traefik.Run (lines 300-316) returns the Spawn error unchanged, so this
normalization is applied directly to errors coming out of the pool. -/
def controllerRunNormalizeErr (e : GoError) : GoError :=
  if errorsIs e .deadlineExceeded || errorsIs e .canceled then .runTimeout
  else .wrap "running Traefik experiment" e

/-- Counterexample for C3: the queue-full rejection error reaching
Controller.Run is normalized into ErrRunTimeout, so the error returned to
the Controller caller for a rejected-at-admission run is exactly the
run-timeout kind - contradicting the claim that it is a distinct
queue-full kind and never the run-timeout kind. -/
theorem queueFull_becomes_runTimeout_counterexample :
    controllerRunNormalizeErr queueFullError = GoError.runTimeout ∧
    errorsIs (controllerRunNormalizeErr queueFullError) GoError.runTimeout = true := by
  decide

/-- Claim C3 (amended): the queue-full rejection error of Spawn wraps
context.DeadlineExceeded, so the errors.Is check of Controller.Run
normalizes it into ErrRunTimeout: the Controller caller receives the
run-timeout error kind for queue-full rejections, indistinguishable from
a deadline-exceeded run, even though the pool error value itself differs
from ErrRunTimeout. -/
theorem queueFull_wraps_deadlineExceeded :
    errorsIs queueFullError GoError.deadlineExceeded = true ∧
    controllerRunNormalizeErr queueFullError = GoError.runTimeout ∧
    queueFullError ≠ GoError.runTimeout := by
  decide

/-! ## internal/traefik Command.Exec (src/unnamed/part_010, lines 277-332) -/

/-- Outcome of cmd.Wait: clean exit, nonzero exit of the isolated child
(an exec.ExitError carrying the exit code), or any other I/O failure. -/
inductive WaitOutcome
  | clean
  | exitErr (code : Nat)
  | ioErr (m : String)
deriving DecidableEq

/-- The I/O environment of one Exec run: which fallible step fails, the
Wait outcome, and what the child wrote to its stderr pipe. -/
structure ExecEnv where
  marshalRequestErr : Option String
  stdinPipeErr : Option String
  startErr : Option String
  stdinWriteErr : Option String
  stdinCloseErr : Option String
  wait : WaitOutcome
  childStderr : GoStr
deriving DecidableEq

/-- The step whose failure Exec reports. -/
inductive ExecFailure
  | marshalRequest
  | stdinPipe
  | start
  | stdinWrite
  | stdinClose
  | waitOther
deriving DecidableEq

/-- Observable outcome of Exec: the reported error if any, the final
captured stderr, whether the stdin pipe was created, and whether Close
was called on it. -/
structure ExecOutcome where
  err : Option ExecFailure
  stderr : GoStr
  stdinPipeCreated : Bool
  stdinCloseCalled : Bool
deriving DecidableEq

/-- The diagnostic appended to the captured stderr on a nonzero child
exit (src/unnamed/part_010, line 323): two newlines and "command failed
with status" followed by the exit code. -/
def exitStatusMessage (code : Nat) : GoStr :=
  [10, 10] ++ strBytes "command failed with status " ++
    (Nat.toDigits 10 code).map (fun c => c.toNat)

/-- (*Command).Exec (src/unnamed/part_010, lines 277-332) as a function of
its I/O environment, following the source path by path: request
marshaling, stdin pipe setup, Start (closing the pipe on failure), stdin
write (closing the pipe on failure), stdin close, then Wait - where an
exec.ExitError is logged, the exit status is appended to the captured
stderr, and nil is returned; any other Wait error is reported. -/
def execCommand (env : ExecEnv) : ExecOutcome :=
  match env.marshalRequestErr with
  | some _ => ⟨some .marshalRequest, env.childStderr, false, false⟩
  | none =>
    match env.stdinPipeErr with
    | some _ => ⟨some .stdinPipe, env.childStderr, false, false⟩
    | none =>
      match env.startErr with
      | some _ => ⟨some .start, env.childStderr, true, true⟩
      | none =>
        match env.stdinWriteErr with
        | some _ => ⟨some .stdinWrite, env.childStderr, true, true⟩
        | none =>
          match env.stdinCloseErr with
          | some _ => ⟨some .stdinClose, env.childStderr, true, true⟩
          | none =>
            match env.wait with
            | .clean => ⟨none, env.childStderr, true, true⟩
            | .exitErr code => ⟨none, env.childStderr ++ exitStatusMessage code, true, true⟩
            | .ioErr _ => ⟨some .waitOther, env.childStderr, true, true⟩

/-- Claim C5: Exec treats a nonzero exit of the isolated process as
success - no error, and the exit status appended to the captured stderr
diagnostics; it returns an error exactly when one of the spawn or pipe
I/O steps fails (marshaling the request for the spawn arguments, stdin
pipe setup, process start, stdin write, stdin close, or a non-exit Wait
failure); and on every error path on which the stdin pipe exists, Close
was called on it. -/
theorem exec_soft_nonzero_exit (env : ExecEnv) :
    ((execCommand env).err = none ↔
      env.marshalRequestErr = none ∧ env.stdinPipeErr = none ∧ env.startErr = none ∧
      env.stdinWriteErr = none ∧ env.stdinCloseErr = none ∧
      ∀ m, env.wait ≠ WaitOutcome.ioErr m) ∧
    (∀ code, env.marshalRequestErr = none → env.stdinPipeErr = none → env.startErr = none →
      env.stdinWriteErr = none → env.stdinCloseErr = none →
      env.wait = WaitOutcome.exitErr code →
      (execCommand env).err = none ∧
      (execCommand env).stderr = env.childStderr ++ exitStatusMessage code) ∧
    ((execCommand env).err.isSome = true → (execCommand env).stdinPipeCreated = true →
      (execCommand env).stdinCloseCalled = true) := by
  obtain ⟨me, pe, se, we, ce, w, cs⟩ := env
  cases me <;> cases pe <;> cases se <;> cases we <;> cases ce <;> cases w <;>
    simp [execCommand]

/-- Witness for C5: a run in which every I/O step succeeds and the child
exits with status 3 - Exec reports no error and the stderr diagnostics
end with the exit status message. -/
theorem exec_soft_nonzero_exit_witness :
    (execCommand ⟨none, none, none, none, none, WaitOutcome.exitErr 3, [97]⟩).err = none ∧
    (execCommand ⟨none, none, none, none, none, WaitOutcome.exitErr 3, [97]⟩).stderr =
      [97] ++ exitStatusMessage 3 :=
  (exec_soft_nonzero_exit ⟨none, none, none, none, none, WaitOutcome.exitErr 3, [97]⟩).2.1
    3 rfl rfl rfl rfl rfl rfl

/-! ## encoding/base64 StdEncoding, used by the run bundle codec -/

/-- The standard base64 alphabet, as byte values. -/
def base64Alphabet : GoStr :=
  [65, 66, 67, 68, 69, 70, 71, 72, 73, 74, 75, 76, 77, 78, 79, 80, 81, 82,
   83, 84, 85, 86, 87, 88, 89, 90,
   97, 98, 99, 100, 101, 102, 103, 104, 105, 106, 107, 108, 109, 110, 111,
   112, 113, 114, 115, 116, 117, 118, 119, 120, 121, 122,
   48, 49, 50, 51, 52, 53, 54, 55, 56, 57, 43, 47]

/-- The alphabet byte of a 6-bit group. -/
def b64Char (i : Nat) : Nat := base64Alphabet.getD i 0

def b64IndexAux (c : Nat) : GoStr → Nat → Option Nat
  | [], _ => none
  | d :: rest, i => if d = c then some i else b64IndexAux c rest (i + 1)

/-- The 6-bit group of an alphabet byte, none for a byte outside the
alphabet (the padding byte 61 included). -/
def b64Index (c : Nat) : Option Nat := b64IndexAux c base64Alphabet 0

/-- base64.StdEncoding.EncodeToString: three bytes to four alphabet
bytes; one or two remaining bytes are padded with 61. -/
def base64Encode : GoStr → GoStr
  | b0 :: b1 :: b2 :: rest =>
    let n := b0 * 65536 + b1 * 256 + b2
    b64Char (n / 262144) :: b64Char (n / 4096 % 64) :: b64Char (n / 64 % 64) ::
      b64Char (n % 64) :: base64Encode rest
  | [b0, b1] =>
    let n := b0 * 1024 + b1 * 4
    [b64Char (n / 4096), b64Char (n / 64 % 64), b64Char (n % 64), 61]
  | [b0] =>
    let n := b0 * 16
    [b64Char (n / 64), b64Char (n % 64), 61, 61]
  | [] => []

/-- base64.StdEncoding.DecodeString: four bytes at a time, accepting
padding only at the end, failing on any byte outside the alphabet. -/
def base64Decode : GoStr → Option GoStr
  | [] => some []
  | c0 :: c1 :: c2 :: c3 :: rest =>
    match b64Index c0, b64Index c1 with
    | some i0, some i1 =>
      if c2 = 61 then
        if c3 = 61 ∧ rest = [] then some [i0 * 4 + i1 / 16] else none
      else
        match b64Index c2 with
        | some i2 =>
          if c3 = 61 then
            if rest = [] then some [i0 * 4 + i1 / 16, i1 % 16 * 16 + i2 / 4] else none
          else
            match b64Index c3 with
            | some i3 =>
              let m := i0 * 262144 + i1 * 4096 + i2 * 64 + i3
              match base64Decode rest with
              | some tail => some (m / 65536 :: m / 256 % 256 :: m % 256 :: tail)
              | none => none
            | none => none
        | none => none
    | _, _ => none
  | _ => none

theorem b64Index_b64Char : ∀ i : Fin 64, b64Index (b64Char i.val) = some i.val := by decide

theorem b64Char_ne_61 : ∀ i : Fin 64, b64Char i.val ≠ 61 := by decide

theorem base64_roundtrip_bounded :
    ∀ (fuel : Nat) (bs : GoStr), bs.length ≤ fuel → (∀ b ∈ bs, b < 256) →
      base64Decode (base64Encode bs) = some bs := by
  intro fuel
  induction fuel with
  | zero =>
    intro bs hlen hb
    have hnil : bs = [] := List.eq_nil_of_length_eq_zero (Nat.le_zero.mp hlen)
    subst hnil
    rfl
  | succ f ih =>
    intro bs hlen hb
    match bs with
    | [] => rfl
    | [b0] =>
      have h0 : b0 < 256 := hb b0 (by simp)
      have e0 := b64Index_b64Char ⟨b0 * 16 / 64, by omega⟩
      have e1 := b64Index_b64Char ⟨b0 * 16 % 64, by omega⟩
      simp only [base64Encode, base64Decode, e0, e1, if_pos rfl]
      simp
      omega
    | [b0, b1] =>
      have h0 : b0 < 256 := hb b0 (by simp)
      have h1 : b1 < 256 := hb b1 (by simp)
      have e0 := b64Index_b64Char ⟨(b0 * 1024 + b1 * 4) / 4096, by omega⟩
      have e1 := b64Index_b64Char ⟨(b0 * 1024 + b1 * 4) / 64 % 64, by omega⟩
      have e2 := b64Index_b64Char ⟨(b0 * 1024 + b1 * 4) % 64, by omega⟩
      have ne2 := b64Char_ne_61 ⟨(b0 * 1024 + b1 * 4) % 64, by omega⟩
      simp only [base64Encode, base64Decode, e0, e1, e2, if_neg ne2, if_pos rfl]
      simp
      omega
    | b0 :: b1 :: b2 :: b3 :: bsRest =>
      have h0 : b0 < 256 := hb b0 (by simp)
      have h1 : b1 < 256 := hb b1 (by simp)
      have h2 : b2 < 256 := hb b2 (by simp)
      have hrest : ∀ b ∈ b3 :: bsRest, b < 256 := fun b hm => hb b (by simp [hm])
      have hlen2 : (b3 :: bsRest).length ≤ f := by
        simp only [List.length_cons] at hlen ⊢
        omega
      have ihr := ih (b3 :: bsRest) hlen2 hrest
      have e0 := b64Index_b64Char ⟨(b0 * 65536 + b1 * 256 + b2) / 262144, by omega⟩
      have e1 := b64Index_b64Char ⟨(b0 * 65536 + b1 * 256 + b2) / 4096 % 64, by omega⟩
      have e2 := b64Index_b64Char ⟨(b0 * 65536 + b1 * 256 + b2) / 64 % 64, by omega⟩
      have e3 := b64Index_b64Char ⟨(b0 * 65536 + b1 * 256 + b2) % 64, by omega⟩
      have ne2 := b64Char_ne_61 ⟨(b0 * 65536 + b1 * 256 + b2) / 64 % 64, by omega⟩
      have ne3 := b64Char_ne_61 ⟨(b0 * 65536 + b1 * 256 + b2) % 64, by omega⟩
      simp only [base64Encode, base64Decode, e0, e1, e2, e3, if_neg ne2, if_neg ne3, ihr]
      simp
      refine ⟨?_, ?_, ?_⟩ <;> omega
    | [b0, b1, b2] =>
      have h0 : b0 < 256 := hb b0 (by simp)
      have h1 : b1 < 256 := hb b1 (by simp)
      have h2 : b2 < 256 := hb b2 (by simp)
      have e0 := b64Index_b64Char ⟨(b0 * 65536 + b1 * 256 + b2) / 262144, by omega⟩
      have e1 := b64Index_b64Char ⟨(b0 * 65536 + b1 * 256 + b2) / 4096 % 64, by omega⟩
      have e2 := b64Index_b64Char ⟨(b0 * 65536 + b1 * 256 + b2) / 64 % 64, by omega⟩
      have e3 := b64Index_b64Char ⟨(b0 * 65536 + b1 * 256 + b2) % 64, by omega⟩
      have ne2 := b64Char_ne_61 ⟨(b0 * 65536 + b1 * 256 + b2) / 64 % 64, by omega⟩
      have ne3 := b64Char_ne_61 ⟨(b0 * 65536 + b1 * 256 + b2) % 64, by omega⟩
      simp only [base64Encode, base64Decode, e0, e1, e2, e3, if_neg ne2, if_neg ne3]
      simp
      refine ⟨?_, ?_, ?_⟩ <;> omega

theorem base64_decode_encode (bs : GoStr) (hb : ∀ b ∈ bs, b < 256) :
    base64Decode (base64Encode bs) = some bs :=
  base64_roundtrip_bounded bs.length bs (Nat.le_refl _) hb

/-! ## app/app.go: the run bundle codec (lines 371-431) -/

/-- HTTPResponse (src/internal/experiment/experiment.go, lines 143-148). -/
structure HTTPResponse where
  proto : GoStr
  statusCode : Int
  headers : List (GoStr × GoStr)
  body : GoStr
deriving DecidableEq

/-- Log (src/internal/traefik/log.go, lines 24-32); the free-form
key/value field map is modelled as an association list. -/
structure Log where
  message : GoStr
  timestamp : GoStr
  level : GoStr
  error : GoStr
  fields : List (GoStr × GoStr)
deriving DecidableEq

/-- Result (src/internal/experiment/experiment.go, lines 59-62). -/
structure Result where
  response : HTTPResponse
  logs : List Log
deriving DecidableEq

/-- runBundle (src/app/app.go, lines 371-374). -/
structure RunBundle where
  experiment : Experiment
  result : Result
deriving DecidableEq

/-- generateHMAC (src/app/app.go, lines 422-431): the base64 encoding of
the HMAC-SHA256 digest of the data under the secret key. The digest
(crypto/hmac over crypto/sha256) is external to the repository and enters
as the deterministic function parameter hmacSHA256, taking the key and
the data. -/
def generateHMAC (hmacSHA256 : GoStr → GoStr → GoStr) (data secretKey : GoStr) : GoStr :=
  base64Encode (hmacSHA256 secretKey data)

/-- marshalRunBundle (src/app/app.go, lines 376-391): serialize the
bundle (encoding/json is external and enters as the parameter
jsonMarshal), sign the exact serialized bytes, and return the base64
bundle text paired with the detached signature. -/
def marshalRunBundle (jsonMarshal : RunBundle → GoStr)
    (hmacSHA256 : GoStr → GoStr → GoStr)
    (exp : Experiment) (res : Result) (secretKey : GoStr) : GoStr × GoStr :=
  let marshaled := jsonMarshal ⟨exp, res⟩
  (base64Encode marshaled, generateHMAC hmacSHA256 marshaled secretKey)

/-- unmarshalRunBundle (src/app/app.go, lines 393-419): base64-decode the
bundle text, recompute the keyed signature over the decoded bytes,
compare it with the supplied signature (hmac.Equal is equality of the two
byte strings), and only on a match decode the payload (encoding/json,
external, parameter jsonUnmarshal). -/
def unmarshalRunBundle (jsonUnmarshal : GoStr → Option RunBundle)
    (hmacSHA256 : GoStr → GoStr → GoStr)
    (bundle signature secretKey : GoStr) : Except String (Experiment × Result) :=
  match base64Decode bundle with
  | none => .error "illegal base64 data"
  | some decoded =>
    if generateHMAC hmacSHA256 decoded secretKey ≠ signature then
      .error "invalid response signature"
    else
      match jsonUnmarshal decoded with
      | none => .error "invalid character in payload"
      | some b => .ok (b.experiment, b.result)

set_option maxHeartbeats 1000000 in
/-- Claim C1: for every experiment, result and secret key,
unmarshalRunBundle applied to the pair produced by marshalRunBundle with
the same key succeeds and returns exactly the original pair. The two
external stdlib codecs enter as parameters: any deterministic keyed
digest, and any JSON codec that round-trips on the serialized bundle
(the documented encoding/json behaviour for these types) whose output is
a byte string. -/
theorem runBundle_roundtrip (jsonMarshal : RunBundle → GoStr)
    (jsonUnmarshal : GoStr → Option RunBundle)
    (hmacSHA256 : GoStr → GoStr → GoStr)
    (exp : Experiment) (res : Result) (secretKey : GoStr)
    (hjson : jsonUnmarshal (jsonMarshal ⟨exp, res⟩) = some ⟨exp, res⟩)
    (hbytes : ∀ b ∈ jsonMarshal ⟨exp, res⟩, b < 256) :
    unmarshalRunBundle jsonUnmarshal hmacSHA256
      (marshalRunBundle jsonMarshal hmacSHA256 exp res secretKey).1
      (marshalRunBundle jsonMarshal hmacSHA256 exp res secretKey).2
      secretKey = .ok (exp, res) := by
  simp only [marshalRunBundle, unmarshalRunBundle,
    base64_decode_encode _ hbytes, hjson]
  simp

def witnessExperiment : Experiment := ⟨[99], ⟨[71], [104], [], []⟩⟩

def witnessResult : Result := ⟨⟨[72], 200, [], []⟩, []⟩

def witnessBundle : RunBundle := ⟨witnessExperiment, witnessResult⟩

def witnessJsonMarshal : RunBundle → GoStr := fun _ => [7, 8]

def witnessJsonUnmarshal : GoStr → Option RunBundle :=
  fun bs => if bs = [7, 8] then some witnessBundle else none

def witnessMac : GoStr → GoStr → GoStr := fun key data => key ++ data

/-- Witness for C1: a concrete bundle, JSON codec and keyed digest; the
full pipeline - base64 encoding, signing, decoding, constant-time
comparison, payload decoding - evaluates to the original pair. -/
theorem runBundle_roundtrip_witness :
    witnessJsonUnmarshal (witnessJsonMarshal witnessBundle) = some witnessBundle ∧
    (∀ b ∈ witnessJsonMarshal witnessBundle, b < 256) ∧
    unmarshalRunBundle witnessJsonUnmarshal witnessMac
      (marshalRunBundle witnessJsonMarshal witnessMac witnessExperiment witnessResult [5]).1
      (marshalRunBundle witnessJsonMarshal witnessMac witnessExperiment witnessResult [5]).2
      [5] = .ok (witnessExperiment, witnessResult) :=
  ⟨by decide, by decide,
    runBundle_roundtrip witnessJsonMarshal witnessJsonUnmarshal witnessMac
      witnessExperiment witnessResult [5] (by decide) (by decide)⟩

/-! ## the content-addressed Store (Store.Save and Store.Get,
src/internal/command/pool.go lines 96-155, over the shared_experiments
table of src/unnamed/part_003) -/

/-- One row of the shared_experiments table (src/unnamed/part_003):
public_id is the primary key, hash is unique, the experiment columns, the
client IP, and the last_retrieved_at stamp. The created_at column is
touched by no modelled query and is omitted. -/
structure StoredRow where
  publicId : GoStr
  hash : GoStr
  dynamicConfig : GoStr
  request : HTTPRequest
  result : Result
  clientIP : GoStr
  lastRetrievedAt : Option Nat
deriving DecidableEq

/-- Store.Save (src/internal/command/pool.go, lines 96-138): hash the
canonical serialization of the experiment and result pair (sha256 over
the json bytes, both external: parameter digest), then one atomic upsert:
INSERT with ON CONFLICT on hash DO UPDATE SET hash to itself, RETURNING
public_id. On a hash conflict the table is unchanged and the existing
public_id of that row is returned; otherwise the fresh row is inserted
under the freshly generated opaque id (shortuuid.New, parameter freshId). -/
def storeSave (digest : RunBundle → GoStr) (table : List StoredRow) (freshId : GoStr)
    (exp : Experiment) (res : Result) (clientIP : GoStr) : List StoredRow × GoStr :=
  let hash := digest ⟨exp, res⟩
  match table.find? (fun row => row.hash == hash) with
  | some existing => (table, existing.publicId)
  | none =>
    (table ++ [⟨freshId, hash, exp.dynamicConfig, exp.request, res, clientIP, none⟩], freshId)

/-- Store.Get (src/internal/command/pool.go, lines 141-155): UPDATE the
last_retrieved_at stamp of the row with the given public_id, RETURNING
its experiment columns; with no matching row, ErrNotFound. -/
def storeGet (table : List StoredRow) (publicId : GoStr) (now : Nat) :
    List StoredRow × Except GoError (Experiment × Result) :=
  match table.find? (fun row => row.publicId == publicId) with
  | none => (table, .error .notFound)
  | some row =>
    (table.map (fun r =>
        if r.publicId == publicId then { r with lastRetrievedAt := some now } else r),
      .ok (⟨row.dynamicConfig, row.request⟩, row.result))

theorem find?_append_of_none {α : Type} (p : α → Bool) (l1 l2 : List α)
    (h : l1.find? p = none) : (l1 ++ l2).find? p = l2.find? p := by
  induction l1 with
  | nil => simp
  | cons a rest ih =>
    cases hpa : p a with
    | true => simp [List.find?_cons, hpa] at h
    | false =>
      simp only [List.find?_cons, hpa] at h
      simp only [List.cons_append, List.find?_cons, hpa]
      exact ih h

/-- Claim C6: saving the same experiment and result twice - from any
table holding neither that content digest nor the fresh id - returns the
identical public id both times, creates exactly one row, keeps the client
IP of the first save, and Get on that public id returns the pair
unchanged, whichever save produced the row. -/
theorem store_save_idempotent (digest : RunBundle → GoStr) (table : List StoredRow)
    (exp : Experiment) (res : Result) (ip1 ip2 id1 id2 : GoStr) (now : Nat)
    (hHash : ∀ row ∈ table, row.hash ≠ digest ⟨exp, res⟩)
    (hFresh : ∀ row ∈ table, row.publicId ≠ id1) :
    (storeSave digest table id1 exp res ip1).2 = id1 ∧
    (storeSave digest (storeSave digest table id1 exp res ip1).1 id2 exp res ip2).2 = id1 ∧
    (storeSave digest (storeSave digest table id1 exp res ip1).1 id2 exp res ip2).1 =
      (storeSave digest table id1 exp res ip1).1 ∧
    (storeSave digest table id1 exp res ip1).1.length = table.length + 1 ∧
    (∀ row ∈ (storeSave digest table id1 exp res ip1).1,
      row.publicId = id1 → row.clientIP = ip1) ∧
    (storeGet (storeSave digest table id1 exp res ip1).1 id1 now).2 =
      Except.ok (exp, res) := by
  have hfindHash : table.find? (fun row => row.hash == digest ⟨exp, res⟩) = none := by
    rw [List.find?_eq_none]
    intro x hx
    simp [hHash x hx]
  have hfindId : table.find? (fun row => row.publicId == id1) = none := by
    rw [List.find?_eq_none]
    intro x hx
    simp [hFresh x hx]
  have hs1pair : storeSave digest table id1 exp res ip1 =
      (table ++ [⟨id1, digest ⟨exp, res⟩, exp.dynamicConfig, exp.request, res, ip1, none⟩],
        id1) := by
    simp [storeSave, hfindHash]
  have hfind2 : (table ++
      [(⟨id1, digest ⟨exp, res⟩, exp.dynamicConfig, exp.request, res, ip1, none⟩ :
        StoredRow)]).find? (fun row => row.hash == digest ⟨exp, res⟩) =
      some ⟨id1, digest ⟨exp, res⟩, exp.dynamicConfig, exp.request, res, ip1, none⟩ := by
    rw [find?_append_of_none _ _ _ hfindHash]
    simp [List.find?_cons]
  have hfindGet : (table ++
      [(⟨id1, digest ⟨exp, res⟩, exp.dynamicConfig, exp.request, res, ip1, none⟩ :
        StoredRow)]).find? (fun row => row.publicId == id1) =
      some ⟨id1, digest ⟨exp, res⟩, exp.dynamicConfig, exp.request, res, ip1, none⟩ := by
    rw [find?_append_of_none _ _ _ hfindId]
    simp [List.find?_cons]
  rw [hs1pair]
  refine ⟨rfl, ?_, ?_, ?_, ?_, ?_⟩
  · simp [storeSave, hfind2]
  · simp [storeSave, hfind2]
  · simp
  · intro row hrow hid
    rcases List.mem_append.mp hrow with hmem | hmem
    · exact absurd hid (hFresh row hmem)
    · simp only [List.mem_singleton] at hmem
      subst hmem
      rfl
  · simp [storeGet, hfindGet]

def witnessDigest : RunBundle → GoStr := fun _ => [9]

/-- Witness for C6: two saves of the same concrete pair into an empty
table under different client IPs and fresh ids. -/
theorem store_save_idempotent_witness :
    (∀ row ∈ ([] : List StoredRow), row.hash ≠ witnessDigest ⟨witnessExperiment, witnessResult⟩) ∧
    (∀ row ∈ ([] : List StoredRow), row.publicId ≠ [1]) ∧
    ((storeSave witnessDigest [] [1] witnessExperiment witnessResult [2]).2 = [1] ∧
      (storeSave witnessDigest
        (storeSave witnessDigest [] [1] witnessExperiment witnessResult [2]).1
        [3] witnessExperiment witnessResult [4]).2 = [1] ∧
      (storeSave witnessDigest
        (storeSave witnessDigest [] [1] witnessExperiment witnessResult [2]).1
        [3] witnessExperiment witnessResult [4]).1 =
        (storeSave witnessDigest [] [1] witnessExperiment witnessResult [2]).1 ∧
      (storeSave witnessDigest [] [1] witnessExperiment witnessResult [2]).1.length =
        ([] : List StoredRow).length + 1 ∧
      (∀ row ∈ (storeSave witnessDigest [] [1] witnessExperiment witnessResult [2]).1,
        row.publicId = [1] → row.clientIP = [2]) ∧
      (storeGet (storeSave witnessDigest [] [1] witnessExperiment witnessResult [2]).1
        [1] 7).2 = Except.ok (witnessExperiment, witnessResult)) :=
  ⟨by simp, by simp,
    store_save_idempotent witnessDigest [] witnessExperiment witnessResult
      [2] [4] [1] [3] 7 (by simp) (by simp)⟩

end Playground
